import Mathlib

/- Verification of the enforce-hsts enforcement-state engine.

The development shallowly embeds the two variants of the Enforcer module
found in the repository: the current variant, whose persisted store maps
hosts to records carrying an includeSubdomains flag, and the legacy
variant, whose store maps hosts to the boolean true and which retains the
binary toggleSTSEnforcingForHost operation.

A host name is represented by its dot-separated labels, leftmost label
first, so "sub.example.com" becomes ["sub", "example", "com"].  The
nsISiteSecurityService collaborator is modelled as a map from host and
browsing context (permanent or private) to a processed HSTS entry, and the
nsIEffectiveTLDService collaborator is modelled by getBaseDomainFromHost
below. -/

namespace HSTS

/-- A host name, given as its dot-separated labels, leftmost label first. -/
abbrev Host := List String

/-- The five status constants of Enforcer.status. -/
inductive STSStatus where
  | NOT_ENFORCED
  | SITE_ENFORCED
  | USER_ENFORCED
  | USER_ENFORCED_WITH_SUBDOMAINS
  | USER_ENFORCED_PARENT
deriving DecidableEq

/-- A persisted user policy entry of the current variant: the value stored
at storage.enforceHosts[host], an object with one includeSubdomains field. -/
structure PolicyEntry where
  includeSubdomains : Bool
deriving DecidableEq

/-- The storage.enforceHosts object of the current variant: an association
of hosts to policy entries with pairwise distinct keys. -/
abbrev Store := List (Host × PolicyEntry)

/-- Property read m[h] on the enforceHosts object. -/
def lookupEntry : Store → Host → Option PolicyEntry
  | [], _ => none
  | (k, v) :: t, h => if k = h then some v else lookupEntry t h

/-- Property write m[h] = e on the enforceHosts object: replaces the entry
of an existing key, otherwise adds the key. -/
def insertEntry : Store → Host → PolicyEntry → Store
  | [], h, e => [(h, e)]
  | (k, v) :: t, h, e => if k = h then (h, e) :: t else (k, v) :: insertEntry t h e

/-- Property deletion (the JavaScript delete operator) on the enforceHosts
object. -/
def eraseEntry : Store → Host → Store
  | [], _ => []
  | (k, v) :: t, h => if k = h then t else (k, v) :: eraseEntry t h

/-- An HSTS entry held by the site security service for one host in one
browsing context, recording whether the processed header carried the
includeSubDomains directive. -/
structure BackendEntry where
  includeSubdomains : Bool
deriving DecidableEq

/-- State of nsISiteSecurityService: for each host and context an optional
processed entry.  The Bool argument is the context: false is the permanent
context (flag 0), true is the private context (NO_PERMANENT_STORAGE). -/
abbrev Backend := Host → Bool → Option BackendEntry

/-- Model of sss.unsafeProcessHeader for HEADERS_HSTS: stores an entry for
the URI host in the given context, carrying the includeSubDomains
directive of the header value. -/
def processHeader (b : Backend) (h : Host) (inc : Bool) (eph : Bool) : Backend :=
  fun h2 e2 => if h2 = h ∧ e2 = eph then some ⟨inc⟩ else b h2 e2

/-- Model of sss.removeState for HEADERS_HSTS: drops the entry for the URI
host in the given context. -/
def removeState (b : Backend) (h : Host) (eph : Bool) : Backend :=
  fun h2 e2 => if h2 = h ∧ e2 = eph then none else b h2 e2

/-- The proper superdomains of a host, nearest first: every suffix of the
label list other than the host itself and the empty suffix. -/
def superdomains : Host → List Host
  | [] => []
  | [_] => []
  | _ :: t => t :: superdomains t

/-- Model of sss.isSecureURI for HEADERS_HSTS: a host is secure when it has
an exact entry in the given context, or when some superdomain has an entry
whose header carried includeSubDomains. -/
def isSecureHost (b : Backend) (eph : Bool) (h : Host) : Bool :=
  (b h eph).isSome ||
    (superdomains h).any fun a =>
      match b a eph with
      | some e => e.includeSubdomains
      | none => false

/-- Model of the external nsIEffectiveTLDService.getBaseDomainFromHost.
Level 0 is the registrable base domain (the public suffix plus one label);
each further level prepends one more label of the host, so the host itself
is reached at the highest level; asking for more labels than the host has
raises NS_ERROR_INSUFFICIENT_DOMAIN_LEVELS, modelled as none.  Public
suffixes are modelled as single labels, which matches every domain the
repository works with (com, test). -/
def getBaseDomainFromHost (h : Host) (extra : Nat) : Option Host :=
  if 2 + extra ≤ h.length then some (h.drop (h.length - (2 + extra))) else none

/-- The candidate hosts the for-loop of getEnforcingParentHost visits, in
visit order: getBaseDomainFromHost at levels 0, 1, ... until the service
reports insufficient domain levels. -/
def ancestorChain (h : Host) : List Host :=
  (List.range (h.length - 1)).filterMap (getBaseDomainFromHost h)

/-- State of the current variant: the persisted storage (enforceHosts is
undefined until first initialized, modelled by none) and the site security
service. -/
structure State where
  enforceHosts : Option Store
  backend : Backend

/-- Embeds Enforcer.getEnforcingParentHost of the current variant.  The
loop asks the effective-TLD service for level 0, 1, ... and returns the
first candidate with a store entry (the test is existence only, the entry
is not inspected).  When storage.enforceHosts is still undefined the
property read inside the try block throws, the catch breaks the loop and
null is returned. -/
def getEnforcingParentHost (st : State) (h : Host) : Option Host :=
  match st.enforceHosts with
  | none => none
  | some m => (ancestorChain h).find? fun a => (lookupEntry m a).isSome

/-- Embeds Enforcer.getSTSStatusForHost of the current variant.  Reading
enforceHosts[host] on an undefined enforceHosts throws, modelled as none;
otherwise exactly one of the five status constants is returned. -/
def getSTSStatusForHost (st : State) (h : Host) : Option STSStatus :=
  match st.enforceHosts with
  | none => none
  | some m =>
    match lookupEntry m h with
    | some e =>
      if e.includeSubdomains then some STSStatus.USER_ENFORCED_WITH_SUBDOMAINS
      else some STSStatus.USER_ENFORCED
    | none =>
      if (getEnforcingParentHost st h).isSome then some STSStatus.USER_ENFORCED_PARENT
      else if isSecureHost st.backend false h then some STSStatus.SITE_ENFORCED
      else some STSStatus.NOT_ENFORCED

/-- Embeds Enforcer.enableSTSForHost of the current variant: processes the
synthetic header once for the permanent context and once for the private
context, with includeSubDomains in the value iff the flag is set. -/
def enableSTSForHost (st : State) (h : Host) (inc : Bool) : State :=
  { st with backend := processHeader (processHeader st.backend h inc false) h inc true }

/-- Embeds Enforcer.disableSTSForHost: removes the state once for the
permanent context and once for the private context. -/
def disableSTSForHost (st : State) (h : Host) : State :=
  { st with backend := removeState (removeState st.backend h false) h true }

/-- Embeds Enforcer.updateSTSForHost: clears any existing state first,
then enables when requested. -/
def updateSTSForHost (st : State) (h : Host) (enforce inc : Bool) : State :=
  let st1 := disableSTSForHost st h
  if enforce then enableSTSForHost st1 h inc else st1

/-- Embeds Enforcer.setSTSForHost: a switch on the current status whose
cases are USER_ENFORCED_WITH_SUBDOMAINS, USER_ENFORCED and NOT_ENFORCED;
those update the backend and then write or delete the store entry, every
other status falls through the switch and nothing happens.  When the
status computation throws, the call throws. -/
def setSTSForHost (st : State) (h : Host) (enforce inc : Bool) : Option State :=
  match getSTSStatusForHost st h with
  | none => none
  | some STSStatus.USER_ENFORCED_WITH_SUBDOMAINS
  | some STSStatus.USER_ENFORCED
  | some STSStatus.NOT_ENFORCED =>
    let st1 := updateSTSForHost st h enforce inc
    some { st1 with
           enforceHosts := st1.enforceHosts.map fun m =>
             if enforce then insertEntry m h ⟨inc⟩ else eraseEntry m h }
  | some _ => some st

/-- The replay loop of Enforcer.ensureSTS: enables every stored host with
its stored includeSubdomains flag. -/
def replayStore (m : Store) (st : State) : State :=
  m.foldl (fun acc p => enableSTSForHost acc p.1 p.2.includeSubdomains) st

/-- Embeds Enforcer.ensureSTS of the current variant: initializes
enforceHosts to the empty object when it is still undefined, then replays
every entry through enableSTSForHost. -/
def ensureSTS (st : State) : State :=
  replayStore (st.enforceHosts.getD [])
    { st with enforceHosts := some (st.enforceHosts.getD []) }

/-- Model of the JavaScript test uri.startsWith(pattern) on the character
lists of the two strings. -/
def charsStart : List Char → List Char → Bool
  | _, [] => true
  | [], _ :: _ => false
  | c :: s, d :: p => c == d && charsStart s p

/-- Embeds the string branch of Enforcer.getURI: returns the string
locator handed to ioService.newURI.  The host is wrapped as
http://host/ only when the string does not start with "http". -/
def getURI (uri : String) : String :=
  if charsStart uri.data "http".data then uri else "http://" ++ uri ++ "/"

namespace Legacy

/-- The storage.enforceHosts object of the legacy variant: hosts mapped to
booleans (the code only ever stores true). -/
abbrev LStore := List (Host × Bool)

/-- Property read m[h] on the legacy enforceHosts object. -/
def lookupL : LStore → Host → Option Bool
  | [], _ => none
  | (k, v) :: t, h => if k = h then some v else lookupL t h

/-- Property write m[h] = b on the legacy enforceHosts object. -/
def insertL : LStore → Host → Bool → LStore
  | [], h, b => [(h, b)]
  | (k, v) :: t, h, b => if k = h then (h, b) :: t else (k, v) :: insertL t h b

/-- Property deletion on the legacy enforceHosts object. -/
def eraseL : LStore → Host → LStore
  | [], _ => []
  | (k, v) :: t, h => if k = h then t else (k, v) :: eraseL t h

/-- State of the legacy variant. -/
structure LState where
  enforceHosts : Option LStore
  backend : Backend

/-- Embeds the legacy Enforcer.getSTSStatusForHost: exact check with
strict equality against true, then the inline parent walk over the
effective-TLD levels, then the site query, else NOT_ENFORCED. -/
def getSTSStatusForHost (st : LState) (h : Host) : Option STSStatus :=
  match st.enforceHosts with
  | none => none
  | some m =>
    if lookupL m h = some true then some STSStatus.USER_ENFORCED
    else if ((ancestorChain h).find? fun a => lookupL m a == some true).isSome then
      some STSStatus.USER_ENFORCED_PARENT
    else if isSecureHost st.backend false h then some STSStatus.SITE_ENFORCED
    else some STSStatus.NOT_ENFORCED

/-- Embeds the legacy Enforcer.enableSTSForHost: the processed header
value is the constant "max-age=31556900; includeSubDomains;", so the
stored entry always carries the includeSubDomains directive; issued for
the permanent and the private context. -/
def enableSTSForHost (st : LState) (h : Host) : LState :=
  { st with backend := processHeader (processHeader st.backend h true false) h true true }

/-- Embeds the legacy Enforcer.disableSTSForHost. -/
def disableSTSForHost (st : LState) (h : Host) : LState :=
  { st with backend := removeState (removeState st.backend h false) h true }

/-- Embeds Enforcer.toggleSTSEnforcingForHost of the legacy variant: a
switch with exactly two cases.  USER_ENFORCED disables the host and
deletes its store entry, NOT_ENFORCED enables the host and stores true;
every other status falls through and nothing happens. -/
def toggleSTSEnforcingForHost (st : LState) (h : Host) : Option LState :=
  match getSTSStatusForHost st h with
  | none => none
  | some STSStatus.USER_ENFORCED =>
    let st1 := disableSTSForHost st h
    some { st1 with enforceHosts := st1.enforceHosts.map fun m => eraseL m h }
  | some STSStatus.NOT_ENFORCED =>
    let st1 := enableSTSForHost st h
    some { st1 with enforceHosts := st1.enforceHosts.map fun m => insertL m h true }
  | some _ => some st

end Legacy

/-- The backend entry written by enableSTSForHost, at any point. -/
theorem enable_backend_point (st : State) (h : Host) (i : Bool) (h2 : Host) (e2 : Bool) :
    (enableSTSForHost st h i).backend h2 e2 =
      if h2 = h then some ⟨i⟩ else st.backend h2 e2 := by
  cases e2 <;> by_cases hh : h2 = h <;> simp [enableSTSForHost, processHeader, hh]

/-- The backend entry left by disableSTSForHost, at any point. -/
theorem disable_backend_point (st : State) (h : Host) (h2 : Host) (e2 : Bool) :
    (disableSTSForHost st h).backend h2 e2 =
      if h2 = h then none else st.backend h2 e2 := by
  cases e2 <;> by_cases hh : h2 = h <;> simp [disableSTSForHost, removeState, hh]

/-- The backend entry left by an enabling updateSTSForHost, at any point. -/
theorem update_backend_point (st : State) (h : Host) (i : Bool) (h2 : Host) (e2 : Bool) :
    (updateSTSForHost st h true i).backend h2 e2 =
      if h2 = h then some ⟨i⟩ else st.backend h2 e2 := by
  by_cases hh : h2 = h <;>
    simp [updateSTSForHost, enable_backend_point, disable_backend_point, hh]

/-- updateSTSForHost only touches the backend. -/
theorem update_enforceHosts (st : State) (h : Host) (e i : Bool) :
    (updateSTSForHost st h e i).enforceHosts = st.enforceHosts := by
  cases e <;> rfl

/-- Reading back the key just written into the store. -/
theorem lookup_insert (m : Store) (h : Host) (e : PolicyEntry) :
    lookupEntry (insertEntry m h e) h = some e := by
  induction m with
  | nil => simp [insertEntry, lookupEntry]
  | cons p t ih =>
    obtain ⟨k, v⟩ := p
    by_cases hk : k = h <;> simp [insertEntry, lookupEntry, hk, ih]

/-- The replay loop never touches the store. -/
theorem replay_enforceHosts (m : Store) (st : State) :
    (replayStore m st).enforceHosts = st.enforceHosts := by
  induction m generalizing st with
  | nil => rfl
  | cons p t ih =>
    simpa [replayStore] using ih (enableSTSForHost st p.1 p.2.includeSubdomains)

/-- The entry of the latest occurrence of a key in the store list, the one
whose replay directive survives the loop. -/
def lookupLast : Store → Host → Option PolicyEntry
  | [], _ => none
  | (k, v) :: t, h =>
    match lookupLast t h with
    | some e => some e
    | none => if k = h then some v else none

/-- What the replay loop leaves in the backend, at any point. -/
theorem replay_backend_point (m : Store) (st : State) (h2 : Host) (e2 : Bool) :
    (replayStore m st).backend h2 e2 =
      match lookupLast m h2 with
      | some e => some ⟨e.includeSubdomains⟩
      | none => st.backend h2 e2 := by
  induction m generalizing st with
  | nil => rfl
  | cons p t ih =>
    obtain ⟨k, v⟩ := p
    rw [show replayStore ((k, v) :: t) st
          = replayStore t (enableSTSForHost st k v.includeSubdomains) from rfl, ih]
    cases hl : lookupLast t h2 with
    | some e => simp [lookupLast, hl]
    | none =>
      by_cases hk : k = h2
      · simp [lookupLast, hl, hk, enable_backend_point]
      · have hk2 : ¬ h2 = k := fun hh => hk hh.symm
        simp [lookupLast, hl, hk, hk2, enable_backend_point]

/-- ensureSTS always leaves the store initialized, to its previous entries. -/
theorem ensure_enforceHosts (st : State) :
    (ensureSTS st).enforceHosts = some (st.enforceHosts.getD []) := by
  simp [ensureSTS, replay_enforceHosts]

/-- What ensureSTS leaves in the backend, at any point. -/
theorem ensure_backend_point (st : State) (h2 : Host) (e2 : Bool) :
    (ensureSTS st).backend h2 e2 =
      match lookupLast (st.enforceHosts.getD []) h2 with
      | some e => some ⟨e.includeSubdomains⟩
      | none => st.backend h2 e2 := by
  simp [ensureSTS, replay_backend_point]

/-- C6: ensureSTS is idempotent with respect to the backend: for every
store state, running the replay a second time leaves the site security
service exactly as the first run left it. -/
theorem ensureSTS_idempotent (st : State) :
    (ensureSTS (ensureSTS st)).backend = (ensureSTS st).backend := by
  funext h2 e2
  rw [ensure_backend_point (ensureSTS st) h2 e2, ensure_enforceHosts st]
  simp only [Option.getD_some]
  cases hl : lookupLast (st.enforceHosts.getD []) h2 with
  | none => simp [hl]
  | some e => simp [hl, ensure_backend_point st h2 e2]

/-- C3: when the current status is SITE_ENFORCED or USER_ENFORCED_PARENT,
setSTSForHost falls through its switch and the whole state, store and
backend alike, is returned unchanged, whatever flags were passed. -/
theorem setSTSForHost_guard_noop (st : State) (h : Host) (e i : Bool)
    (hs : getSTSStatusForHost st h = some STSStatus.SITE_ENFORCED ∨
          getSTSStatusForHost st h = some STSStatus.USER_ENFORCED_PARENT) :
    setSTSForHost st h e i = some st := by
  rcases hs with h1 | h1 <;> simp [setSTSForHost, h1]

/-- C3 witness: a concrete site-enforced host on which setSTSForHost is a
no-op. -/
theorem setSTSForHost_guard_noop_witness :
    getSTSStatusForHost
        (State.mk (some [])
          (fun h2 e2 => if h2 = ["site", "com"] ∧ e2 = false then some ⟨false⟩ else none))
        ["site", "com"] = some STSStatus.SITE_ENFORCED ∧
    setSTSForHost
        (State.mk (some [])
          (fun h2 e2 => if h2 = ["site", "com"] ∧ e2 = false then some ⟨false⟩ else none))
        ["site", "com"] true true =
      some (State.mk (some [])
        (fun h2 e2 => if h2 = ["site", "com"] ∧ e2 = false then some ⟨false⟩ else none)) :=
  ⟨by decide, setSTSForHost_guard_noop _ _ _ _ (Or.inl (by decide))⟩

/-- C4 counterexample: the claim quantifies over all hosts, but for a host
governed by a parent entry the guard of setSTSForHost makes the call a
no-op, so the status afterwards is still USER_ENFORCED_PARENT rather than
USER_ENFORCED. -/
theorem setSTSForHost_on_parent_governed_host :
    (setSTSForHost (State.mk (some [(["example", "com"], ⟨true⟩)]) (fun _ _ => none))
        ["sub", "example", "com"] true false).map
      (fun s2 => getSTSStatusForHost s2 ["sub", "example", "com"])
      = some (some STSStatus.USER_ENFORCED_PARENT) ∧
    STSStatus.USER_ENFORCED_PARENT ≠ STSStatus.USER_ENFORCED := by
  decide

/-- C4 as amended: for a host whose current status is NOT_ENFORCED,
USER_ENFORCED or USER_ENFORCED_WITH_SUBDOMAINS, setSTSForHost with
enforce and no subdomains leaves the host USER_ENFORCED and the backend
carrying an entry without includeSubDomains in both the permanent and the
private context. -/
theorem setSTSForHost_sets_user_enforced (st : State) (h : Host)
    (hs : getSTSStatusForHost st h = some STSStatus.NOT_ENFORCED ∨
          getSTSStatusForHost st h = some STSStatus.USER_ENFORCED ∨
          getSTSStatusForHost st h = some STSStatus.USER_ENFORCED_WITH_SUBDOMAINS) :
    (setSTSForHost st h true false).map
        (fun s2 => (getSTSStatusForHost s2 h, s2.backend h false, s2.backend h true)) =
      some (some STSStatus.USER_ENFORCED, some ⟨false⟩, some ⟨false⟩) := by
  obtain ⟨m, hm⟩ : ∃ m, st.enforceHosts = some m := by
    cases henf : st.enforceHosts with
    | none => rcases hs with h1 | h1 | h1 <;> simp [getSTSStatusForHost, henf] at h1
    | some m => exact ⟨m, rfl⟩
  have hset : setSTSForHost st h true false =
      some { updateSTSForHost st h true false with
             enforceHosts := some (insertEntry m h ⟨false⟩) } := by
    rcases hs with h1 | h1 | h1 <;>
      simp [setSTSForHost, h1, update_enforceHosts, hm]
  rw [hset]
  simp [getSTSStatusForHost, lookup_insert, update_backend_point]

/-- C4 witness: enforcing a fresh host from the empty store. -/
theorem setSTSForHost_sets_user_enforced_witness :
    getSTSStatusForHost (State.mk (some []) (fun _ _ => none)) ["example", "com"]
      = some STSStatus.NOT_ENFORCED ∧
    (setSTSForHost (State.mk (some []) (fun _ _ => none)) ["example", "com"] true false).map
        (fun s2 => (getSTSStatusForHost s2 ["example", "com"],
                    s2.backend ["example", "com"] false,
                    s2.backend ["example", "com"] true)) =
      some (some STSStatus.USER_ENFORCED, some ⟨false⟩, some ⟨false⟩) :=
  ⟨by decide, setSTSForHost_sets_user_enforced _ _ (Or.inl (by decide))⟩

/-- C9: enableSTSForHost processes the header for the permanent and for
the private context, and disableSTSForHost removes the state for both, so
after either operation the two contexts hold the same enforcement state
for the target host. -/
theorem enable_disable_both_contexts (st : State) (h : Host) (i : Bool) :
    ((enableSTSForHost st h i).backend h false = some ⟨i⟩ ∧
     (enableSTSForHost st h i).backend h true = some ⟨i⟩) ∧
    ((disableSTSForHost st h).backend h false = none ∧
     (disableSTSForHost st h).backend h true = none) := by
  simp [enable_backend_point, disable_backend_point]

/-- C10: getSTSStatusForHost returns one of the five status values exactly
when storage.enforceHosts has been initialized; on an uninitialized
storage the property read throws (modelled as none) instead of returning
NOT_ENFORCED. -/
theorem getSTSStatusForHost_total (st : State) (h : Host) :
    (getSTSStatusForHost st h).isSome = st.enforceHosts.isSome := by
  cases henf : st.enforceHosts with
  | none => simp [getSTSStatusForHost, henf]
  | some m =>
    simp only [getSTSStatusForHost, henf, Option.isSome_some]
    cases lookupEntry m h with
    | some e => by_cases hi : e.includeSubdomains <;> simp [hi]
    | none =>
      by_cases hp : (getEnforcingParentHost st h).isSome <;>
        by_cases hsec : isSecureHost st.backend false h <;> simp [hp, hsec]

/-- Unfolding of a defined effective-TLD level: the guard holds and the
candidate is the corresponding tail of the host. -/
theorem baseDomain_spec {h : Host} {i : Nat} {b : Host}
    (hb : getBaseDomainFromHost h i = some b) :
    2 + i ≤ h.length ∧ b = h.drop (h.length - (2 + i)) := by
  unfold getBaseDomainFromHost at hb
  split at hb
  · exact ⟨by assumption, (Option.some.inj hb).symm⟩
  · exact absurd hb (by simp)

/-- The candidate at effective-TLD level i has exactly 2 + i labels. -/
theorem baseDomain_length {h : Host} {i : Nat} {b : Host}
    (hb : getBaseDomainFromHost h i = some b) : b.length = 2 + i := by
  obtain ⟨hle, rfl⟩ := baseDomain_spec hb
  rw [List.length_drop]
  omega

/-- Every member of the walk's candidate list comes from some level. -/
theorem chain_mem {h b : Host} (hb : b ∈ ancestorChain h) :
    ∃ i, i < h.length - 1 ∧ getBaseDomainFromHost h i = some b := by
  unfold ancestorChain at hb
  rw [List.mem_filterMap] at hb
  obtain ⟨i, hi, hfi⟩ := hb
  exact ⟨i, List.mem_range.mp hi, hfi⟩

/-- The walk's candidate list is ordered by label count: level 0 is the
registrable base domain, later levels are longer. -/
theorem ancestorChain_sorted (h : Host) :
    (ancestorChain h).Pairwise fun x y => x.length ≤ y.length := by
  unfold ancestorChain
  rw [List.pairwise_filterMap]
  refine (List.pairwise_lt_range _).imp ?_
  intro i j hij b hb b2 hb2
  rw [baseDomain_length hb, baseDomain_length hb2]
  omega

/-- On a list whose label counts never decrease, find? returns a match of
least label count. -/
theorem find_min_on_sorted {p : Host → Bool} :
    ∀ {l : List Host}, (l.Pairwise fun x y => x.length ≤ y.length) →
      ∀ {a : Host}, l.find? p = some a →
        ∀ b ∈ l, p b = true → a.length ≤ b.length := by
  intro l
  induction l with
  | nil => intro _ a ha; simp [List.find?] at ha
  | cons c t ih =>
    intro hsort a ha b hb hpb
    obtain ⟨hhead, htail⟩ := List.pairwise_cons.mp hsort
    by_cases hc : p c
    · rw [List.find?_cons_of_pos t hc] at ha
      obtain rfl : c = a := Option.some.inj ha
      rcases List.mem_cons.mp hb with rfl | hbt
      · exact le_refl _
      · exact hhead b hbt
    · rw [List.find?_cons_of_neg t hc] at ha
      rcases List.mem_cons.mp hb with rfl | hbt
      · exact absurd hpb (by simpa using hc)
      · exact ih htail ha b hbt hpb

/-- C1: with a stored ancestor entry whose includeSubdomains flag is
false, getSTSStatusForHost still reports USER_ENFORCED_PARENT for the
subdomain (the walk tests entry existence only), even though after the
ensureSTS replay the site security service does not enforce the subdomain
at all. -/
theorem parent_status_despite_flag_false :
    getSTSStatusForHost
        (ensureSTS (State.mk (some [(["example", "com"], ⟨false⟩)]) (fun _ _ => none)))
        ["sub", "example", "com"] = some STSStatus.USER_ENFORCED_PARENT ∧
    isSecureHost
        (ensureSTS (State.mk (some [(["example", "com"], ⟨false⟩)]) (fun _ _ => none))).backend
        false ["sub", "example", "com"] = false := by
  decide

/-- C2 counterexample: with qualifying entries on both sub.example.com
and example.com, the walk from a.sub.example.com returns example.com, the
farthest ancestor, not the nearest qualifying ancestor sub.example.com. -/
theorem enforcingParent_returns_farthest :
    getEnforcingParentHost
        (State.mk (some [(["sub", "example", "com"], ⟨true⟩), (["example", "com"], ⟨true⟩)])
          (fun _ _ => none))
        ["a", "sub", "example", "com"] = some ["example", "com"] ∧
    (lookupEntry [(["sub", "example", "com"], ⟨true⟩), (["example", "com"], ⟨true⟩)]
        ["sub", "example", "com"]).isSome = true := by
  decide

/-- C2 as amended: getEnforcingParentHost visits the candidates from the
registrable base domain towards the host, so the ancestor it returns has
an entry and carries the fewest labels among all candidates with entries:
the farthest qualifying ancestor wins, not the nearest. -/
theorem enforcingParent_first_match_is_farthest (st : State) (m : Store) (h a b : Host)
    (hm : st.enforceHosts = some m)
    (ha : getEnforcingParentHost st h = some a)
    (hb : b ∈ ancestorChain h)
    (hpb : (lookupEntry m b).isSome = true) :
    (lookupEntry m a).isSome = true ∧ a.length ≤ b.length := by
  simp only [getEnforcingParentHost, hm] at ha
  have hpa : (lookupEntry m a).isSome = true := by simpa using List.find?_some ha
  exact ⟨hpa, find_min_on_sorted (ancestorChain_sorted h) ha b hb hpb⟩

/-- C2 witness: the two-ancestor store of the counterexample, where the
returned example.com matches and is no longer than the qualifying
sub.example.com. -/
theorem enforcingParent_first_match_is_farthest_witness :
    getEnforcingParentHost
        (State.mk (some [(["sub", "example", "com"], ⟨true⟩), (["example", "com"], ⟨true⟩)])
          (fun _ _ => none))
        ["a", "sub", "example", "com"] = some ["example", "com"] ∧
    (["sub", "example", "com"] : Host) ∈ ancestorChain ["a", "sub", "example", "com"] ∧
    (lookupEntry [(["sub", "example", "com"], ⟨true⟩), (["example", "com"], ⟨true⟩)]
        ["sub", "example", "com"]).isSome = true ∧
    ((lookupEntry [(["sub", "example", "com"], ⟨true⟩), (["example", "com"], ⟨true⟩)]
        ["example", "com"]).isSome = true ∧
      (["example", "com"] : Host).length ≤ (["sub", "example", "com"] : Host).length) :=
  ⟨by decide, by decide, by decide,
    enforcingParent_first_match_is_farthest
      (State.mk (some [(["sub", "example", "com"], ⟨true⟩), (["example", "com"], ⟨true⟩)])
        (fun _ _ => none))
      [(["sub", "example", "com"], ⟨true⟩), (["example", "com"], ⟨true⟩)]
      ["a", "sub", "example", "com"] ["example", "com"] ["sub", "example", "com"]
      rfl (by decide) (by decide) (by decide)⟩

/-- C5 counterexample: when the host itself has a store entry and is
exactly a registrable base domain, the walk returns the host itself. -/
theorem enforcingParent_can_return_host_itself :
    getEnforcingParentHost
        (State.mk (some [(["example", "com"], ⟨true⟩)]) (fun _ _ => none))
        ["example", "com"] = some ["example", "com"] := by
  decide

/-- C5 as amended: the candidate walk does reach the host itself at its
highest level, so getEnforcingParentHost can return the host when the host
has an exact store entry; only when the host has no exact entry, as on
every path through getSTSStatusForHost that reaches the walk, is the
returned ancestor proper: a strictly shorter suffix of the host. -/
theorem enforcingParent_proper_when_no_exact (st : State) (m : Store) (h a : Host)
    (hm : st.enforceHosts = some m)
    (hno : lookupEntry m h = none)
    (ha : getEnforcingParentHost st h = some a) :
    a ≠ h ∧ a.length < h.length ∧ List.IsSuffix a h := by
  simp only [getEnforcingParentHost, hm] at ha
  have hpa : (lookupEntry m a).isSome = true := by simpa using List.find?_some ha
  have hane : a ≠ h := by
    rintro rfl
    rw [hno] at hpa
    simp at hpa
  obtain ⟨i, hi, hbd⟩ := chain_mem (List.mem_of_find?_eq_some ha)
  obtain ⟨hle, rfl⟩ := baseDomain_spec hbd
  refine ⟨hane, ?_, List.drop_suffix _ _⟩
  have hlen : (h.drop (h.length - (2 + i))).length = 2 + i := by
    rw [List.length_drop]
    omega
  rcases Nat.lt_or_ge (2 + i) h.length with hlt | hge
  · omega
  · have hz : h.length - (2 + i) = 0 := by omega
    rw [hz, List.drop_zero] at hane
    exact absurd rfl hane

/-- C5 witness: a parent-governed subdomain whose returned ancestor is a
strictly shorter proper suffix. -/
theorem enforcingParent_proper_when_no_exact_witness :
    lookupEntry [(["example", "com"], ⟨true⟩)] ["sub", "example", "com"] = none ∧
    getEnforcingParentHost
        (State.mk (some [(["example", "com"], ⟨true⟩)]) (fun _ _ => none))
        ["sub", "example", "com"] = some ["example", "com"] ∧
    ((["example", "com"] : Host) ≠ ["sub", "example", "com"] ∧
      (["example", "com"] : Host).length < (["sub", "example", "com"] : Host).length ∧
      List.IsSuffix (["example", "com"] : Host) ["sub", "example", "com"]) :=
  ⟨by decide, by decide,
    enforcingParent_proper_when_no_exact
      (State.mk (some [(["example", "com"], ⟨true⟩)]) (fun _ _ => none))
      [(["example", "com"], ⟨true⟩)]
      ["sub", "example", "com"] ["example", "com"]
      rfl (by decide) (by decide)⟩

/-- C7 counterexample: toggling a NOT_ENFORCED host with the legacy
toggle enables it with the constant header value that always carries
includeSubDomains, so the backend entry covers subdomains and a subdomain
of the host becomes secure. -/
theorem toggle_enables_with_subdomains :
    (Legacy.toggleSTSEnforcingForHost (Legacy.LState.mk (some []) (fun _ _ => none))
        ["example", "com"]).map
      (fun s2 => (s2.backend ["example", "com"] false,
                  isSecureHost s2.backend false ["sub", "example", "com"]))
      = some (some ⟨true⟩, true) := by
  decide

/-- C7 as amended: the legacy toggle enables the host with subdomain
coverage (never without) when the status is NOT_ENFORCED, disables the
host and deletes its entry when USER_ENFORCED, and is a no-op for every
other status, SITE_ENFORCED and USER_ENFORCED_PARENT included. -/
theorem toggle_cases (st : Legacy.LState) (m : Legacy.LStore) (h : Host) (s : STSStatus)
    (hm : st.enforceHosts = some m)
    (hs : Legacy.getSTSStatusForHost st h = some s) :
    match s with
    | STSStatus.NOT_ENFORCED =>
        Legacy.toggleSTSEnforcingForHost st h =
          some (Legacy.LState.mk (some (Legacy.insertL m h true))
            (processHeader (processHeader st.backend h true false) h true true))
    | STSStatus.USER_ENFORCED =>
        Legacy.toggleSTSEnforcingForHost st h =
          some (Legacy.LState.mk (some (Legacy.eraseL m h))
            (removeState (removeState st.backend h false) h true))
    | _ => Legacy.toggleSTSEnforcingForHost st h = some st := by
  cases s <;>
    simp [Legacy.toggleSTSEnforcingForHost, hs, Legacy.enableSTSForHost,
      Legacy.disableSTSForHost, hm]

/-- C7 witness: toggling a fresh host from the empty legacy store stores
true for it and processes the subdomain-covering header in both contexts. -/
theorem toggle_cases_witness :
    Legacy.getSTSStatusForHost (Legacy.LState.mk (some []) (fun _ _ => none)) ["example", "com"]
      = some STSStatus.NOT_ENFORCED ∧
    Legacy.toggleSTSEnforcingForHost (Legacy.LState.mk (some []) (fun _ _ => none))
        ["example", "com"] =
      some (Legacy.LState.mk (some (Legacy.insertL [] ["example", "com"] true))
        (processHeader (processHeader (fun _ _ => none) ["example", "com"] true false)
          ["example", "com"] true true)) :=
  ⟨by decide, toggle_cases _ [] _ STSStatus.NOT_ENFORCED rfl (by decide)⟩

/-- C8: getURI wraps a bare host as http://host/ only when the string does
not start with "http"; a host name that begins with the letters "http",
such as httpbin.org, is handed to the locator parser unwrapped and
unchanged, while an ordinary host is wrapped as the claim states. -/
theorem getURI_http_named_host_not_wrapped :
    getURI "httpbin.org" = "httpbin.org" ∧
    getURI "example.com" = "http://example.com/" := by
  constructor <;> rfl

end HSTS
